import Mathlib

/-!
Verification development for the GPT2 fine-tuning / generation wrapper
(`src/models/gpt2.py`).

The file shallowly embeds the pieces of the program the claims are about:

* the post-processing of `GPT2.generate` (Python `str.find` and slicing),
* the per-example loss scaling of `GPT2.train_epoch`,
* the mean dev-loss of `GPT2.evaluate`,
* the constrained sequence sampler `sample_sequence` and the multi-device
  wrapper `GPT2LMHeadModelMultiDevicesWrapper`.  These two live in
  `gpt2_utils.py`, which is not part of the sources; they are modelled from
  the specification (each such definition carries a doc comment starting
  with `Modelled from the spec:`).

Machine floats are embedded as exact rationals; fallible Python code
(runtime errors) is embedded with `Option` / `Except`.
-/

namespace GPT2Repo

/-! ## Python string primitives used by `GPT2.generate` (lines 136-140) -/

/-- Python `hay.find(needle)` for strings viewed as lists of characters:
the smallest index `i` such that `needle` occurs in `hay` starting at `i`,
and `-1` when there is no occurrence. -/
def pyStrFind (hay needle : List Char) : Int :=
  match (List.range (hay.length + 1)).find? (fun i => needle.isPrefixOf (hay.drop i)) with
  | some i => (i : Int)
  | none => -1

/-- Python slicing `s[:j]` for a possibly negative `j`: a negative bound
counts from the end of the string, and the effective bound is clamped to
`[0, len s]`. -/
def pySliceTo (s : List Char) (j : Int) : List Char :=
  let n : Int := s.length
  let j1 : Int := if j < 0 then j + n else j
  s.take (max 0 (min j1 n)).toNat

/-- Substring containment test: `needle` occurs somewhere in `hay`. -/
def hasSubstr (hay needle : List Char) : Bool :=
  (List.range (hay.length + 1)).any (fun i => needle.isPrefixOf (hay.drop i))

/-- The end-of-sequence marker string used by `GPT2.generate` line 138. -/
def eosMarker : List Char := "<|endoftext|>".toList

/-- Post-processing of the decoded continuation in `GPT2.generate`
(line 138): `text = text[: text.find('<|endoftext|>')]`. -/
def postprocess (text : List Char) : List Char :=
  pySliceTo text (pyStrFind text eosMarker)

/-! ## `GPT2.train_epoch` loss scaling (lines 92-104) -/

/-- The batches iterated by `GPT2.train_epoch`: for `i in range(0, len, bs)`
take the slice `data[i : i + bs]`.  Python `range` with step `0` raises, so
`bs = 0` yields no batches. -/
def chunkList (ds : List ℚ) (bs : Nat) : List (List ℚ) :=
  if _h : ds = [] ∨ bs = 0 then []
  else ds.take bs :: chunkList (ds.drop bs) bs
termination_by ds.length
decreasing_by
  push_neg at _h
  simp only [List.length_drop]
  have : ds.length ≠ 0 := fun hl => _h.1 (List.eq_nil_of_length_eq_zero hl)
  omega

/-- The objective accumulated for one batch by `GPT2.train_epoch`
(line 100): each example's loss is multiplied by `1 / batch_size` with the
configured batch size, and the scaled losses are summed (one `backward`
per example accumulates gradients of this sum). -/
def batchObjective (losses : List ℚ) (batch_size : Nat) : ℚ :=
  (losses.map (fun l => l * (1 / (batch_size : ℚ)))).sum

/-! ## `GPT2.evaluate` (lines 110-122) -/

/-- The embedding of `GPT2.evaluate`: the per-example dev losses are
averaged by `sum(loss_list) / len(loss_list)`.  The division is unguarded
in the source, so an empty dev split raises `ZeroDivisionError`, embedded
here as `none`. -/
def evaluate (devLosses : List ℚ) : Option ℚ :=
  if devLosses.length = 0 then none
  else some (devLosses.sum / (devLosses.length : ℚ))

/-! ## Device-sharded model wrapper (modelled from the spec) -/

/-- Modelled from the spec: the partitioning policy of
`GPT2LMHeadModelMultiDevicesWrapper` (in `gpt2_utils.py`, not under
`src/`).  The layer sequence is split into `D` contiguous groups, dividing
the total layer count as evenly as possible with remainder layers assigned
to earlier groups: the first group takes `⌈L / D⌉` layers and the rest are
partitioned among the remaining `D - 1` devices. -/
def partitionLayers {α : Type} : List α → Nat → List (List α)
  | _, 0 => []
  | ls, d + 1 =>
    ls.take ((ls.length + d) / (d + 1)) ::
      partitionLayers (ls.drop ((ls.length + d) / (d + 1))) d

/-- Modelled from the spec: a model is an input embedding, an ordered
sequence of transformer-block layers, and an output head, each owning a
list of named parameters (names paired with tensor values of type `α`). -/
structure GPT2Model (α : Type) where
  embed : List (String × α)
  layers : List (List (String × α))
  head : List (String × α)

/-- Modelled from the spec: the flat parameter mapping (`state_dict`) of
the unsharded model, in declaration order. -/
def GPT2Model.state_dict {α : Type} (m : GPT2Model α) : List (String × α) :=
  m.embed ++ m.layers.flatten ++ m.head

/-- Split a flat list into pieces whose lengths follow a template list. -/
def splitLike {β γ : Type} : List (List β) → List γ → List (List γ)
  | [], _ => []
  | g :: gs, xs => xs.take g.length :: splitLike gs (xs.drop g.length)

/-- Modelled from the spec: loading a checkpoint into the unsharded model.
The parameter names must match exactly (a mismatch is a fatal
`ConsistencyError`, embedded as `none`); on success every parameter value
is restored from the checkpoint. -/
def GPT2Model.load_state_dict {α : Type} (m : GPT2Model α)
    (sd : List (String × α)) : Option (GPT2Model α) :=
  if m.state_dict.map Prod.fst = sd.map Prod.fst then
    some ⟨sd.take m.embed.length,
          splitLike m.layers ((sd.drop m.embed.length).take m.layers.flatten.length),
          (sd.drop m.embed.length).drop m.layers.flatten.length⟩
  else none

/-- Modelled from the spec: the device-sharded wrapper
(`GPT2LMHeadModelMultiDevicesWrapper` in `gpt2_utils.py`, not under
`src/`) holds the underlying model and the ordered device list; its layer
groups are `partitionLayers base.layers devices.length`. -/
structure GPT2LMHeadModelMultiDevicesWrapper (α : Type) where
  base : GPT2Model α
  devices : List String

/-- Modelled from the spec: the wrapper's `state_dict` walks the device
groups in order (embedding with the first group, head with the last), so
parameter names/keys are those of the unsharded model. -/
def GPT2LMHeadModelMultiDevicesWrapper.state_dict {α : Type}
    (w : GPT2LMHeadModelMultiDevicesWrapper α) : List (String × α) :=
  w.base.embed ++ ((partitionLayers w.base.layers w.devices.length).flatten).flatten ++ w.base.head

/-- Modelled from the spec: loading a checkpoint into the sharded wrapper
loads it into the underlying model, keeping the device assignment. -/
def GPT2LMHeadModelMultiDevicesWrapper.load_state_dict {α : Type}
    (w : GPT2LMHeadModelMultiDevicesWrapper α) (sd : List (String × α)) :
    Option (GPT2LMHeadModelMultiDevicesWrapper α) :=
  match w.base.load_state_dict sd with
  | some b => some ⟨b, w.devices⟩
  | none => none

/-- The embedding of `GPT2.save_model` (lines 50-52) for the unsharded
model: `torch.save(self._model.state_dict(), path)`.  The checkpoint
store's byte serialization round-trips bit-identically (spec section 6),
so a stored checkpoint is embedded as the parameter mapping itself. -/
def GPT2Model.save_model {α : Type} (m : GPT2Model α) : List (String × α) :=
  m.state_dict

/-- The embedding of `GPT2.load_model` (lines 54-56) for the unsharded
model: `self._model.load_state_dict(torch.load(path))`. -/
def GPT2Model.load_model {α : Type} (m : GPT2Model α)
    (ckpt : List (String × α)) : Option (GPT2Model α) :=
  m.load_state_dict ckpt

/-- The embedding of `GPT2.save_model` when `self._model` is the sharded
wrapper. -/
def GPT2LMHeadModelMultiDevicesWrapper.save_model {α : Type}
    (w : GPT2LMHeadModelMultiDevicesWrapper α) : List (String × α) :=
  w.state_dict

/-- The embedding of `GPT2.load_model` when `self._model` is the sharded
wrapper. -/
def GPT2LMHeadModelMultiDevicesWrapper.load_model {α : Type}
    (w : GPT2LMHeadModelMultiDevicesWrapper α) (ckpt : List (String × α)) :
    Option (GPT2LMHeadModelMultiDevicesWrapper α) :=
  w.load_state_dict ckpt

/-! ## Constrained sequence sampler (modelled from the spec) -/

/-- Modelled from the spec: the error taxonomy's `ConfigurationError`
cases for the sampler (`sample_sequence` lives in `gpt2_utils.py`, not
under `src/`). -/
inductive ConfigurationError where
  | invalidLength
  | invalidTopP
  | invalidTemperature
  | emptyContext
  deriving DecidableEq

/-- Modelled from the spec: which condition ended generation. -/
inductive StopReason where
  | lengthReached
  | eosReached
  deriving DecidableEq

/-- Modelled from the spec: the decoding configuration
`{top_k, top_p, temperature}`. -/
structure DecodingConfig where
  top_k : Int
  top_p : ℚ
  temperature : ℚ

/-- Position of entry `i` in the stable descending sort of `l`: the number
of entries that are strictly larger, plus the earlier entries that are
equal. -/
def rankOf (l : List ℚ) (i : Nat) : Nat :=
  ((List.range l.length).filter (fun j =>
    decide (l.getD i 0 < l.getD j 0 ∨ (l.getD j 0 = l.getD i 0 ∧ j < i)))).length

/-- Modelled from the spec: top-k filtering over the next-token
distribution.  If `top_k > 0` only the `top_k` highest entries are
retained and all others are set to probability zero; `top_k ≤ 0` disables
the filter.  The distribution is represented in probability space
(temperature scaling and softmax, both monotone real-valued maps, are
folded into the model's output), so "highest logit" and "highest
probability" coincide. -/
def topKFilter (l : List ℚ) (k : Int) : List ℚ :=
  if k ≤ 0 then l
  else (List.range l.length).map (fun i =>
    if (rankOf l i : Int) < k then l.getD i 0 else 0)

/-- Cumulative probability of the entries strictly before entry `i` in the
stable descending sort of `l`. -/
def cumBefore (l : List ℚ) (i : Nat) : ℚ :=
  (((List.range l.length).filter (fun j => decide (rankOf l j < rankOf l i))).map
    (fun j => l.getD j 0)).sum

/-- Modelled from the spec: nucleus (top-p) filtering.  If `top_p < 1` the
candidates are sorted by descending probability and the smallest prefix
whose cumulative probability first exceeds `top_p` is kept, the rest
zeroed; a candidate whose cumulative probability exactly equals `top_p` at
the boundary is included (inclusive boundary), i.e. a candidate survives
exactly when the cumulative probability before it is `< top_p`.
`top_p ≥ 1` disables the filter. -/
def topPFilter (l : List ℚ) (p : ℚ) : List ℚ :=
  if 1 ≤ p then l
  else (List.range l.length).map (fun i =>
    if cumBefore l i < p then l.getD i 0 else 0)

/-- The fully filtered next-token distribution of one sampling step. -/
def filteredDist (probs : List ℚ) (cfg : DecodingConfig) : List ℚ :=
  topPFilter (topKFilter probs cfg.top_k) cfg.top_p

/-- Inverse-CDF weighted random draw: walk the weight list subtracting
weights from the random value until it falls inside an entry. -/
def drawIndex : List ℚ → ℚ → Nat
  | [], _ => 0
  | w :: ws, r => if r < w then 0 else drawIndex ws (r - w) + 1

/-- Modelled from the spec: one sampling step — filter the model's
next-token distribution for the current sequence and draw one token by
weighted random sampling, where `r ∈ [0, 1)` comes from the injected
random source. -/
def sampleStep (model : List Nat → List ℚ) (cfg : DecodingConfig)
    (seq : List Nat) (r : ℚ) : Nat :=
  let ws := filteredDist (model seq) cfg
  drawIndex ws (r * ws.sum)

/-- Modelled from the spec: the sampler's main loop.  One token is drawn
and appended per step; generation stops after the requested number of new
tokens, or immediately when the drawn token is the end-of-sequence marker
and the caller enabled that stop condition, reporting which condition
ended generation. -/
def sampleLoop (model : List Nat → List ℚ) (cfg : DecodingConfig)
    (eosTok : Nat) (stopOnEos : Bool) (rand : Nat → ℚ) :
    List Nat → Nat → Nat → List Nat × StopReason
  | seq, 0, _ => (seq, StopReason.lengthReached)
  | seq, n + 1, step =>
    let t := sampleStep model cfg seq (rand step)
    if stopOnEos ∧ t = eosTok then (seq ++ [t], StopReason.eosReached)
    else sampleLoop model cfg eosTok stopOnEos rand (seq ++ [t]) n (step + 1)

/-- Modelled from the spec: `sample_sequence` (in `gpt2_utils.py`, not
under `src/`).  Inputs are validated before any model computation begins —
requested length `≤ 0`, `top_p` outside `[0, 1]`, `temperature ≤ 0`, or an
empty prefix raise a `ConfigurationError` — and then the sampling loop
extends the seed sequence.  Randomness is an injected source `rand`
(stream of draws in `[0, 1)` indexed by step), never ambient global
state. -/
def sample_sequence (model : List Nat → List ℚ) (context : List Nat)
    (length : Int) (cfg : DecodingConfig) (eosTok : Nat) (stopOnEos : Bool)
    (rand : Nat → ℚ) : Except ConfigurationError (List Nat × StopReason) :=
  if length ≤ 0 then Except.error ConfigurationError.invalidLength
  else if cfg.top_p < 0 ∨ 1 < cfg.top_p then Except.error ConfigurationError.invalidTopP
  else if cfg.temperature ≤ 0 then Except.error ConfigurationError.invalidTemperature
  else if context = [] then Except.error ConfigurationError.emptyContext
  else Except.ok (sampleLoop model cfg eosTok stopOnEos rand context length.toNat 0)

/-- The embedding of `GPT2.generate` (lines 124-140): encode is applied by
the caller (the encoded prompt is `contextTokens`), the requested
additional length is `max_length + 1 - len(context_tokens)`, the sampler
runs with the given `top_k`/`top_p`, the continuation is sliced off
(`out[:, len(context_tokens):]`), decoded by the injected tokenizer
`decode`, and truncated at `'<|endoftext|>'` via `postprocess`. -/
def generate (model : List Nat → List ℚ) (decode : List Nat → List Char)
    (max_length : Nat) (top_k : Int) (top_p : ℚ) (contextTokens : List Nat)
    (rand : Nat → ℚ) : Except ConfigurationError (List Char) :=
  match sample_sequence model contextTokens
      ((max_length : Int) + 1 - contextTokens.length)
      ⟨top_k, top_p, 1⟩ 50256 false rand with
  | Except.error e => Except.error e
  | Except.ok (out, _) => Except.ok (postprocess (decode (out.drop contextTokens.length)))

/-! ## Theorems -/

/-- Helper: a list all of whose entries are zero sums to zero. -/
theorem sum_eq_zero_of_all_getD_zero :
    ∀ (ws : List ℚ), (∀ i < ws.length, ws.getD i 0 = 0) → ws.sum = 0 := by
  intro ws
  induction ws with
  | nil => intro _; rfl
  | cons a t ih =>
    intro h
    have ha : a = 0 := h 0 (by simp)
    have ht : t.sum = 0 := by
      apply ih
      intro i hi
      have := h (i + 1) (by simpa using Nat.succ_lt_succ hi)
      simpa using this
    simp [ha, ht]

/-- C10 (GPT2.evaluate precondition): on a loaded non-empty dev split,
`evaluate` returns the arithmetic mean of the per-example losses, and on a
loaded but empty dev split the unguarded division fails
(`ZeroDivisionError`, embedded as `none`). -/
theorem evaluate_mean_and_empty_fails (devLosses : List ℚ)
    (hne : devLosses ≠ []) :
    evaluate devLosses = some (devLosses.sum / (devLosses.length : ℚ)) ∧
    evaluate [] = none := by
  constructor
  · have : devLosses.length ≠ 0 := fun h => hne (List.eq_nil_of_length_eq_zero h)
    simp [evaluate, this]
  · simp [evaluate]

/-- Witness for C10 at the concrete dev split `[2, 4]`. -/
theorem evaluate_mean_and_empty_fails_witness :
    evaluate [(2 : ℚ), 4] = some (((2 : ℚ) + 4) / 2) ∧ evaluate [] = none := by
  have h := evaluate_mean_and_empty_fails [(2 : ℚ), 4] (by decide)
  constructor
  · rw [h.1]; norm_num
  · exact h.2

/-- Helper: the sum of a list with every element scaled by `c` is the
scaled sum. -/
theorem sum_map_scale (l : List ℚ) (c : ℚ) :
    (l.map (fun x => x * c)).sum = l.sum * c := by
  induction l with
  | nil => simp
  | cons a t ih => simp [ih, add_mul]

/-- Helper: every batch produced by `chunkList` is a slice `take bs` of a
non-empty remainder of the data, hence non-empty when `0 < bs`. -/
theorem chunkList_mem_ne_nil :
    ∀ (n : Nat) (ds : List ℚ) (bs : Nat), ds.length ≤ n → 0 < bs →
      ∀ b ∈ chunkList ds bs, b ≠ [] := by
  intro n
  induction n with
  | zero =>
    intro ds bs hlen _ b hb
    have hds : ds = [] := List.eq_nil_of_length_eq_zero (Nat.le_zero.mp hlen)
    rw [chunkList, dif_pos (Or.inl hds)] at hb
    exact absurd hb (List.not_mem_nil b)
  | succ n ih =>
    intro ds bs hlen hbs b hb
    by_cases hcond : ds = [] ∨ bs = 0
    · rw [chunkList, dif_pos hcond] at hb
      exact absurd hb (List.not_mem_nil b)
    · rw [chunkList, dif_neg hcond] at hb
      push_neg at hcond
      rcases List.mem_cons.mp hb with hb1 | hb1
      · subst hb1
        intro htake
        have h0 : 0 < ds.length := List.length_pos.mpr hcond.1
        have hlt : (ds.take bs).length = 0 := by rw [htake]; rfl
        rw [List.length_take] at hlt
        omega
      · refine ih (ds.drop bs) bs ?_ hbs b hb1
        rw [List.length_drop]
        omega

/-- C9 (partial-batch loss scaling): every batch produced by
`GPT2.train_epoch`'s stride slicing is non-empty, and its accumulated
objective — each example's loss scaled by `1 / batch_size` with the
configured batch size, even in a trailing partial batch — equals
`(m / batch_size) ·` (the batch's mean per-example loss), where `m` is the
batch's actual size. -/
theorem train_epoch_batch_scaling (data : List ℚ) (bs : Nat) (hbs : 0 < bs) :
    ∀ b ∈ chunkList data bs, b ≠ [] ∧
      batchObjective b bs = ((b.length : ℚ) / (bs : ℚ)) * (b.sum / (b.length : ℚ)) := by
  intro b hb
  have hne : b ≠ [] :=
    chunkList_mem_ne_nil data.length data bs le_rfl hbs b hb
  refine ⟨hne, ?_⟩
  have hsum : batchObjective b bs = b.sum * (1 / (bs : ℚ)) := by
    unfold batchObjective
    exact sum_map_scale b _
  have hlen : (b.length : ℚ) ≠ 0 := by
    have : b.length ≠ 0 := fun h => hne (List.eq_nil_of_length_eq_zero h)
    exact_mod_cast Nat.cast_ne_zero.mpr this
  have hbsq : (bs : ℚ) ≠ 0 := Nat.cast_ne_zero.mpr (Nat.pos_iff_ne_zero.mp hbs)
  rw [hsum]
  field_simp
  ring

/-- Witness for C9: data `[1, 2, 3]` with batch size `2` — the trailing
batch `[3]` has size `1` and objective `3 * (1/2) = (1/2) * 3`. -/
theorem train_epoch_batch_scaling_witness :
    ([(3 : ℚ)] ≠ [] ∧
      batchObjective [(3 : ℚ)] 2 =
        (([(3 : ℚ)].length : ℚ) / (2 : ℚ)) * ([(3 : ℚ)].sum / ([(3 : ℚ)].length : ℚ))) :=
  train_epoch_batch_scaling [1, 2, 3] 2 (by decide) [(3 : ℚ)] (by
    have h1 : chunkList [(1 : ℚ), 2, 3] 2 = [[(1 : ℚ), 2], [3]] := by
      rw [chunkList, dif_neg (by simp)]
      rw [chunkList, dif_neg (by simp)]
      rw [chunkList, dif_pos (by simp)]
      norm_num
    rw [h1]
    norm_num)

/-- Helper: Python slicing with bound `-1` removes the last element. -/
theorem pySliceTo_neg_one (s : List Char) : pySliceTo s (-1) = s.dropLast := by
  unfold pySliceTo
  have hn : (max 0 (-1 + (s.length : Int))).toNat = s.length - 1 := by omega
  norm_num
  rw [hn, ← List.dropLast_eq_take]

/-- C8 (GPT2.generate post-processing edge case): the returned text is the
decoded continuation truncated at the first occurrence of
`'<|endoftext|>'`; when the decoded continuation does not contain
`'<|endoftext|>'`, `str.find` returns `-1` and the returned text is the
continuation with its final character removed rather than the full
continuation. -/
theorem generate_eos_truncation (text : List Char)
    (h : hasSubstr text eosMarker = false) :
    pyStrFind text eosMarker = -1 ∧ postprocess text = text.dropLast := by
  have hfind : pyStrFind text eosMarker = -1 := by
    unfold pyStrFind
    cases hfq : (List.range (text.length + 1)).find?
        (fun i => eosMarker.isPrefixOf (text.drop i)) with
    | none => rfl
    | some i =>
      exfalso
      have hpi := List.find?_some hfq
      have himem := List.mem_of_find?_eq_some hfq
      have hany : hasSubstr text eosMarker = true := by
        unfold hasSubstr
        exact List.any_eq_true.mpr ⟨i, himem, hpi⟩
      rw [h] at hany
      exact Bool.false_ne_true hany
  refine ⟨hfind, ?_⟩
  unfold postprocess
  rw [hfind]
  exact pySliceTo_neg_one text

/-- Witness for C8 on the concrete continuation `"abc"`. -/
theorem generate_eos_truncation_witness :
    pyStrFind "abc".toList eosMarker = -1 ∧
    postprocess "abc".toList = "abc".toList.dropLast :=
  generate_eos_truncation "abc".toList (by decide)

/-- C1 (sampler determinism): two sampler runs — also as invoked through
`GPT2.generate` — with identical model, seed sequence, decoding
configuration and random source produce identical results; the outcome is
a function of the injected random source `rand` only, there being no
ambient global random state in the embedding. -/
theorem sampler_determinism (model : List Nat → List ℚ) (context : List Nat)
    (length : Int) (cfg : DecodingConfig) (eosTok : Nat) (stopOnEos : Bool)
    (r1 r2 : Nat → ℚ) (h : r1 = r2) :
    sample_sequence model context length cfg eosTok stopOnEos r1 =
      sample_sequence model context length cfg eosTok stopOnEos r2 ∧
    ∀ (decode : List Nat → List Char) (max_length : Nat) (top_k : Int) (top_p : ℚ),
      generate model decode max_length top_k top_p context r1 =
        generate model decode max_length top_k top_p context r2 := by
  subst h
  exact ⟨rfl, fun _ _ _ _ => rfl⟩

/-- Witness for C1: two runs with the same concrete seed stream coincide. -/
theorem sampler_determinism_witness :
    sample_sequence (fun _ => [1]) [0] 2 ⟨-1, 1, 1⟩ 50256 false (fun _ => 0) =
      sample_sequence (fun _ => [1]) [0] 2 ⟨-1, 1, 1⟩ 50256 false (fun _ => 0) ∧
    ∀ (decode : List Nat → List Char) (max_length : Nat) (top_k : Int) (top_p : ℚ),
      generate (fun _ => [1]) decode max_length top_k top_p [0] (fun _ => 0) =
        generate (fun _ => [1]) decode max_length top_k top_p [0] (fun _ => 0) :=
  sampler_determinism (fun _ => [1]) [0] 2 ⟨-1, 1, 1⟩ 50256 false
    (fun _ => 0) (fun _ => 0) rfl

/-- Helper: ceiling division written through floor division of the
incremented numerator. -/
theorem ceil_div_succ (L d : Nat) :
    (L + d) / (d + 1) = L / (d + 1) + (if L % (d + 1) = 0 then 0 else 1) := by
  obtain ⟨q, r, hr, hL⟩ : ∃ q r, r < d + 1 ∧ (d + 1) * q + r = L :=
    ⟨_, _, Nat.mod_lt _ (Nat.succ_pos d), Nat.div_add_mod L (d + 1)⟩
  have hq : L / (d + 1) = q := by
    rw [← hL, Nat.mul_add_div (Nat.succ_pos d), Nat.div_eq_of_lt hr, Nat.add_zero]
  have hm : L % (d + 1) = r := by
    rw [← hL, Nat.mul_add_mod, Nat.mod_eq_of_lt hr]
  rw [hq, hm, ← hL, Nat.add_assoc, Nat.mul_add_div (Nat.succ_pos d)]
  congr 1
  by_cases h0 : r = 0
  · rw [if_pos h0, h0, Nat.zero_add]
    exact Nat.div_eq_of_lt (by omega)
  · rw [if_neg h0]
    have hsplit : r + d = (r - 1) + (d + 1) := by omega
    rw [hsplit, Nat.add_div_right _ (Nat.succ_pos d), Nat.div_eq_of_lt (by omega)]

/-- Helper: the partition always has exactly `D` groups. -/
theorem partitionLayers_length {α : Type} :
    ∀ (d : Nat) (ls : List α), (partitionLayers ls d).length = d := by
  intro d
  induction d with
  | zero => intro ls; rfl
  | succ d ih => intro ls; simpa [partitionLayers] using ih _

/-- Helper: for at least one device, the in-order concatenation of the
groups is exactly the original layer sequence. -/
theorem partitionLayers_flatten {α : Type} :
    ∀ (d : Nat) (ls : List α), 0 < d → (partitionLayers ls d).flatten = ls := by
  intro d
  induction d with
  | zero => intro ls h; exact absurd h (lt_irrefl 0)
  | succ d ih =>
    intro ls _
    cases Nat.eq_zero_or_pos d with
    | inl h0 =>
      subst h0
      simp [partitionLayers]
    | inr hpos =>
      show ((ls.take ((ls.length + d) / (d + 1))) ::
        partitionLayers (ls.drop ((ls.length + d) / (d + 1))) d).flatten = ls
      rw [List.flatten_cons, ih _ hpos, List.take_append_drop]

/-- Helper: the group sizes are the layer count divided as evenly as
possible, with the remainder assigned to the earlier groups. -/
theorem partitionLayers_sizes {α : Type} :
    ∀ (d : Nat) (ls : List α),
      (partitionLayers ls d).map List.length =
        (List.range d).map
          (fun i => ls.length / d + if i < ls.length % d then 1 else 0) := by
  intro d
  induction d with
  | zero => intro ls; rfl
  | succ d ih =>
    intro ls
    obtain ⟨q, r, hr, hL⟩ : ∃ q r, r < d + 1 ∧ (d + 1) * q + r = ls.length :=
      ⟨_, _, Nat.mod_lt _ (Nat.succ_pos d), Nat.div_add_mod ls.length (d + 1)⟩
    have hexp : (d + 1) * q = d * q + q := by ring
    have hq : ls.length / (d + 1) = q := by
      rw [← hL, Nat.mul_add_div (Nat.succ_pos d), Nat.div_eq_of_lt hr, Nat.add_zero]
    have hm : ls.length % (d + 1) = r := by
      rw [← hL, Nat.mul_add_mod, Nat.mod_eq_of_lt hr]
    have hk : (ls.length + d) / (d + 1) = q + (if r = 0 then 0 else 1) := by
      rw [ceil_div_succ, hq, hm]
    have hkle : (ls.length + d) / (d + 1) ≤ ls.length := by
      rw [hk]
      by_cases h0 : r = 0
      · rw [if_pos h0]; omega
      · rw [if_neg h0]; omega
    show ((ls.take ((ls.length + d) / (d + 1))).length ::
        (partitionLayers (ls.drop ((ls.length + d) / (d + 1))) d).map List.length) =
      (List.range (d + 1)).map
        (fun i => ls.length / (d + 1) + if i < ls.length % (d + 1) then 1 else 0)
    rw [List.range_succ_eq_map, List.map_cons, List.map_map]
    congr 1
    · rw [List.length_take, Nat.min_eq_left hkle, hk, hq, hm]
      by_cases h0 : r = 0
      · simp [h0]
      · rw [if_neg h0, if_pos (Nat.pos_of_ne_zero h0)]
    · rw [ih]
      cases Nat.eq_zero_or_pos d with
      | inl h0 => subst h0; rfl
      | inr hd =>
        by_cases h0 : r = 0
        · have hk0 : (ls.length + d) / (d + 1) = q := by rw [hk, if_pos h0, Nat.add_zero]
          have hL' : ls.length - (ls.length + d) / (d + 1) = d * q := by
            rw [hk0]; omega
          have hq' : (ls.length - (ls.length + d) / (d + 1)) / d = q := by
            rw [hL']; exact Nat.mul_div_cancel_left q hd
          have hm' : (ls.length - (ls.length + d) / (d + 1)) % d = 0 := by
            rw [hL']; exact Nat.mul_mod_right d q
          apply List.map_congr_left
          intro i _
          simp [hq', hm', hq, hm, h0]
        · have hk1 : (ls.length + d) / (d + 1) = q + 1 := by rw [hk, if_neg h0]
          have hL' : ls.length - (ls.length + d) / (d + 1) = d * q + (r - 1) := by
            rw [hk1]; omega
          have hrd : r - 1 < d := by omega
          have hq' : (ls.length - (ls.length + d) / (d + 1)) / d = q := by
            rw [hL', Nat.mul_add_div hd, Nat.div_eq_of_lt hrd, Nat.add_zero]
          have hm' : (ls.length - (ls.length + d) / (d + 1)) % d = r - 1 := by
            rw [hL', Nat.mul_add_mod, Nat.mod_eq_of_lt hrd]
          apply List.map_congr_left
          intro i _
          simp only [Function.comp_apply, List.length_drop, hq', hm', hq, hm]
          congr 1
          rw [if_congr (show (i < r - 1) ↔ (Nat.succ i < r) by omega) rfl rfl]

/-- Helper: with `1 ≤ D ≤ L` every device group is non-empty. -/
theorem partitionLayers_ne_nil {α : Type} (ls : List α) (d : Nat)
    (hd : 0 < d) (hdl : d ≤ ls.length) :
    ∀ g ∈ partitionLayers ls d, g ≠ [] := by
  intro g hg
  have hmem : g.length ∈ (partitionLayers ls d).map List.length :=
    List.mem_map_of_mem List.length hg
  rw [partitionLayers_sizes] at hmem
  obtain ⟨i, _, hfi⟩ := List.mem_map.mp hmem
  have hdiv : 1 ≤ ls.length / d := (Nat.one_le_div_iff hd).mpr hdl
  have hlenpos : 0 < g.length := by
    rw [← hfi]
    by_cases hi : i < ls.length % d
    · rw [if_pos hi]; omega
    · rw [if_neg hi]; omega
  exact fun hnil => by rw [hnil] at hlenpos; exact absurd hlenpos (by simp)

/-- C2 (partition completeness and determinism): for a model with `L`
layers and a device list of length `D` with `1 ≤ D ≤ L`, the sharded
wrapper's partition has exactly `D` contiguous groups, each non-empty,
whose in-order concatenation is exactly the original layer sequence; the
group sizes divide `L` as evenly as possible with the remainder layers
assigned to the earlier groups; and the partition is a pure function of
the model's layers and the device list (any device list of the same
length yields the identical partition). -/
theorem wrapper_partition_spec {α : Type} (ls : List α) (devices : List String)
    (hD : 0 < devices.length) (hDL : devices.length ≤ ls.length) :
    (partitionLayers ls devices.length).length = devices.length ∧
    (partitionLayers ls devices.length).flatten = ls ∧
    (∀ g ∈ partitionLayers ls devices.length, g ≠ []) ∧
    (partitionLayers ls devices.length).map List.length =
      (List.range devices.length).map
        (fun i => ls.length / devices.length +
          if i < ls.length % devices.length then 1 else 0) ∧
    ∀ devices2 : List String, devices2.length = devices.length →
      partitionLayers ls devices2.length = partitionLayers ls devices.length := by
  refine ⟨partitionLayers_length _ _, partitionLayers_flatten _ _ hD,
    partitionLayers_ne_nil ls _ hD hDL, partitionLayers_sizes _ _, ?_⟩
  intro devices2 h2
  rw [h2]

/-- Witness for C2: five layers over two devices give the groups
`[[0, 1, 2], [3, 4]]`. -/
theorem wrapper_partition_spec_witness :
    (partitionLayers [(0 : Nat), 1, 2, 3, 4] 2).length = 2 ∧
    (partitionLayers [(0 : Nat), 1, 2, 3, 4] 2).flatten = [0, 1, 2, 3, 4] ∧
    ([(0 : Nat), 1, 2] ≠ []) ∧
    partitionLayers [(0 : Nat), 1, 2, 3, 4] (["cudaA", "cudaB"] : List String).length =
      partitionLayers [(0 : Nat), 1, 2, 3, 4] 2 := by
  have h := wrapper_partition_spec [(0 : Nat), 1, 2, 3, 4] ["cuda:0", "cuda:1"]
    (by decide) (by decide)
  exact ⟨h.1, h.2.1, h.2.2.1 [0, 1, 2] (by decide), h.2.2.2.2 ["cudaA", "cudaB"] rfl⟩

/-- Helper: splitting a flattened list along its own template recovers the
template. -/
theorem splitLike_flatten {β : Type} :
    ∀ (gs : List (List β)), splitLike gs gs.flatten = gs := by
  intro gs
  induction gs with
  | nil => rfl
  | cons g gs ih =>
    show (g ++ gs.flatten).take g.length :: splitLike gs ((g ++ gs.flatten).drop g.length)
      = g :: gs
    rw [List.take_left, List.drop_left, ih]

/-- Helper: loading a model's own `state_dict` restores the model
exactly. -/
theorem load_state_dict_self {α : Type} (m : GPT2Model α) :
    m.load_state_dict m.state_dict = some m := by
  obtain ⟨e, lyr, hd⟩ := m
  show GPT2Model.load_state_dict ⟨e, lyr, hd⟩ (GPT2Model.state_dict ⟨e, lyr, hd⟩) = _
  unfold GPT2Model.load_state_dict
  rw [if_pos rfl]
  have hsd : GPT2Model.state_dict ⟨e, lyr, hd⟩ = e ++ (lyr.flatten ++ hd) := by
    unfold GPT2Model.state_dict
    rw [List.append_assoc]
  congr 1
  rw [hsd]
  simp only []
  congr 1
  · exact List.take_left e _
  · rw [List.drop_left, List.take_left, splitLike_flatten]
  · rw [List.drop_left, List.drop_left]

/-- Helper: for a non-empty device list the wrapper's `state_dict` is the
unsharded model's `state_dict` — parameter names and values are unaffected
by the partitioning. -/
theorem wrapper_state_dict_eq {α : Type}
    (w : GPT2LMHeadModelMultiDevicesWrapper α) (hD : 0 < w.devices.length) :
    w.state_dict = w.base.state_dict := by
  unfold GPT2LMHeadModelMultiDevicesWrapper.state_dict GPT2Model.state_dict
  rw [partitionLayers_flatten _ _ hD]

/-- C5 (checkpoint round-trip): saving via `save_model` and loading via
`load_model` restores bit-identical parameter values for the unsharded
model and for the sharded wrapper; parameter names/keys are unaffected by
the partitioning, so a checkpoint saved from the unsharded form loads into
the sharded form (and vice versa) and matches. -/
theorem checkpoint_round_trip {α : Type} (m : GPT2Model α)
    (w : GPT2LMHeadModelMultiDevicesWrapper α) (hD : 0 < w.devices.length) :
    m.load_model m.save_model = some m ∧
    w.state_dict = w.base.state_dict ∧
    w.load_model w.save_model = some w ∧
    w.load_model w.base.save_model = some w ∧
    w.base.load_model w.save_model = some w.base := by
  have hwl : w.load_model w.base.state_dict = some w := by
    unfold GPT2LMHeadModelMultiDevicesWrapper.load_model
      GPT2LMHeadModelMultiDevicesWrapper.load_state_dict
    rw [load_state_dict_self w.base]
  refine ⟨load_state_dict_self m, wrapper_state_dict_eq w hD, ?_, ?_, ?_⟩
  · show w.load_model w.state_dict = some w
    rw [wrapper_state_dict_eq w hD]
    exact hwl
  · exact hwl
  · show w.base.load_model w.state_dict = some w.base
    rw [wrapper_state_dict_eq w hD]
    exact load_state_dict_self w.base

/-- Witness for C5 on a concrete two-layer model sharded over two
devices. -/
theorem checkpoint_round_trip_witness :
    (GPT2Model.load_model ⟨[("wte", (1 : ℚ))], [[("h0", 2)], [("h1", 3)]], [("lm", 4)]⟩
        (GPT2Model.save_model ⟨[("wte", (1 : ℚ))], [[("h0", 2)], [("h1", 3)]], [("lm", 4)]⟩) =
      some ⟨[("wte", (1 : ℚ))], [[("h0", 2)], [("h1", 3)]], [("lm", 4)]⟩) ∧
    (GPT2LMHeadModelMultiDevicesWrapper.state_dict
        ⟨⟨[("wte", (1 : ℚ))], [[("h0", 2)], [("h1", 3)]], [("lm", 4)]⟩, ["cuda:0", "cuda:1"]⟩ =
      GPT2Model.state_dict ⟨[("wte", (1 : ℚ))], [[("h0", 2)], [("h1", 3)]], [("lm", 4)]⟩) ∧
    (GPT2LMHeadModelMultiDevicesWrapper.load_model
        ⟨⟨[("wte", (1 : ℚ))], [[("h0", 2)], [("h1", 3)]], [("lm", 4)]⟩, ["cuda:0", "cuda:1"]⟩
        (GPT2LMHeadModelMultiDevicesWrapper.save_model
          ⟨⟨[("wte", (1 : ℚ))], [[("h0", 2)], [("h1", 3)]], [("lm", 4)]⟩, ["cuda:0", "cuda:1"]⟩) =
      some ⟨⟨[("wte", (1 : ℚ))], [[("h0", 2)], [("h1", 3)]], [("lm", 4)]⟩, ["cuda:0", "cuda:1"]⟩) := by
  have h := checkpoint_round_trip
    (⟨[("wte", (1 : ℚ))], [[("h0", 2)], [("h1", 3)]], [("lm", 4)]⟩ : GPT2Model ℚ)
    ⟨⟨[("wte", (1 : ℚ))], [[("h0", 2)], [("h1", 3)]], [("lm", 4)]⟩, ["cuda:0", "cuda:1"]⟩
    (by decide)
  exact ⟨h.1, h.2.1, h.2.2.1⟩

/-- C3 (sampler input validation): a sampling call fails with a
`ConfigurationError` before any model computation when the requested
additional length is `≤ 0`, `top_p` is outside `[0, 1]`,
`temperature ≤ 0`, or the prefix is empty; in particular a `GPT2.generate`
call whose encoded prompt is longer than `max_length + 1` tokens makes the
requested length negative and fails rather than generating. -/
theorem sampler_validation (model : List Nat → List ℚ) (context : List Nat)
    (length : Int) (cfg : DecodingConfig) (eosTok : Nat) (stopOnEos : Bool)
    (rand : Nat → ℚ) (decode : List Nat → List Char) (max_length : Nat)
    (top_k : Int) (top_p : ℚ) :
    ((length ≤ 0 ∨ cfg.top_p < 0 ∨ 1 < cfg.top_p ∨ cfg.temperature ≤ 0 ∨ context = []) →
      ∃ e, sample_sequence model context length cfg eosTok stopOnEos rand =
        Except.error e) ∧
    ((max_length : Int) + 1 < (context.length : Int) →
      generate model decode max_length top_k top_p context rand =
        Except.error ConfigurationError.invalidLength) := by
  constructor
  · intro h
    unfold sample_sequence
    split_ifs with h1 h2 h3 h4
    · exact ⟨_, rfl⟩
    · exact ⟨_, rfl⟩
    · exact ⟨_, rfl⟩
    · exact ⟨_, rfl⟩
    · exfalso; tauto
  · intro h
    unfold generate sample_sequence
    rw [if_pos (show (max_length : Int) + 1 - (context.length : Int) ≤ 0 by omega)]

/-- Witness for C3: an empty prefix is rejected, and a two-token prompt
with `max_length = 0` is rejected as too long. -/
theorem sampler_validation_witness :
    (∃ e, sample_sequence (fun _ => [1]) [] 5 ⟨-1, 1, 1⟩ 50256 false (fun _ => 0) =
      Except.error e) ∧
    generate (fun _ => [1]) (fun _ => []) 0 (-1) 1 [7, 8] (fun _ => 0) =
      Except.error ConfigurationError.invalidLength := by
  have h := sampler_validation (fun _ => [1]) [] 5 ⟨-1, 1, 1⟩ 50256 false
    (fun _ => 0) (fun _ => []) 0 (-1) 1
  have h2 := sampler_validation (fun _ => [1]) [7, 8] 5 ⟨-1, 1, 1⟩ 50256 false
    (fun _ => 0) (fun _ => []) 0 (-1) 1
  exact ⟨h.1 (Or.inr (Or.inr (Or.inr (Or.inr rfl)))), h2.2 (by norm_num)⟩

/-- Helper: the sampling loop adds exactly `n` tokens when it reports
`lengthReached`, and with the end-of-sequence stop disabled it always
reports `lengthReached`. -/
theorem sampleLoop_spec (model : List Nat → List ℚ) (cfg : DecodingConfig)
    (eosTok : Nat) :
    ∀ (n : Nat) (stopOnEos : Bool) (rand : Nat → ℚ) (seq : List Nat)
      (step : Nat) (out : List Nat) (reason : StopReason),
      sampleLoop model cfg eosTok stopOnEos rand seq n step = (out, reason) →
      (reason = StopReason.lengthReached → out.length = seq.length + n) ∧
      (stopOnEos = false → reason = StopReason.lengthReached) := by
  intro n
  induction n with
  | zero =>
    intro stopOnEos rand seq step out reason h
    have hout : out = seq ∧ reason = StopReason.lengthReached := by
      constructor <;> [exact (Prod.mk.injEq _ _ _ _ ▸ h).1.symm;
        exact (Prod.mk.injEq _ _ _ _ ▸ h).2.symm]
    exact ⟨fun _ => by rw [hout.1]; omega, fun _ => hout.2⟩
  | succ n ih =>
    intro stopOnEos rand seq step out reason h
    rw [sampleLoop] at h
    by_cases hstop : stopOnEos ∧ sampleStep model cfg seq (rand step) = eosTok
    · rw [if_pos hstop] at h
      have hre : reason = StopReason.eosReached := (Prod.mk.injEq _ _ _ _ ▸ h).2.symm
      refine ⟨fun hl => ?_, fun hfalse => ?_⟩
      · rw [hre] at hl; exact absurd hl (by simp)
      · exact absurd hstop.1 (by rw [hfalse]; simp)
    · rw [if_neg hstop] at h
      have hrec := ih stopOnEos rand
        (seq ++ [sampleStep model cfg seq (rand step)]) (step + 1) out reason h
      refine ⟨fun hl => ?_, hrec.2⟩
      have := hrec.1 hl
      rw [List.length_append] at this
      simpa [Nat.add_assoc, Nat.add_comm 1 n] using this

/-- C4 (length contract): a sampling call requesting `N > 0` additional
tokens that ends by reaching the requested length (which is always the
case when stop-on-marker is disabled, as in `GPT2.generate`) returns a
full sequence of exactly `len(seed) + N` tokens, and the sliced
continuation `out[len(seed):]` has exactly `N` tokens. -/
theorem sampler_length_contract (model : List Nat → List ℚ) (context : List Nat)
    (length : Int) (cfg : DecodingConfig) (eosTok : Nat) (stopOnEos : Bool)
    (rand : Nat → ℚ) (out : List Nat) (reason : StopReason)
    (h : sample_sequence model context length cfg eosTok stopOnEos rand =
      Except.ok (out, reason)) :
    (reason = StopReason.lengthReached →
      (out.length : Int) = (context.length : Int) + length ∧
      (out.drop context.length).length = length.toNat) ∧
    (stopOnEos = false → reason = StopReason.lengthReached) := by
  unfold sample_sequence at h
  split_ifs at h with h1 h2 h3 h4
  have hv : sampleLoop model cfg eosTok stopOnEos rand context length.toNat 0 =
      (out, reason) := by
    injection h
  have hloop := sampleLoop_spec model cfg eosTok length.toNat stopOnEos rand
    context 0 out reason hv
  refine ⟨fun hl => ?_, hloop.2⟩
  have hlen := hloop.1 hl
  constructor
  · omega
  · rw [List.length_drop]; omega

/-- Witness for C4: requesting 2 tokens from the one-token seed `[0]`
yields the three-token sequence `[0, 0, 0]` and a two-token
continuation. -/
theorem sampler_length_contract_witness :
    (([(0 : Nat), 0, 0].length : Int) = (([(0 : Nat)].length : Int)) + 2 ∧
      ([(0 : Nat), 0, 0].drop [(0 : Nat)].length).length = (2 : Int).toNat) :=
  (sampler_length_contract (fun _ => [1]) [0] 2 ⟨-1, 1, 1⟩ 50256 false
    (fun _ => 0) [0, 0, 0] StopReason.lengthReached (by
      have hstep : ∀ s : List Nat, sampleStep (fun _ => [1]) ⟨-1, 1, 1⟩ s 0 = 0 := by
        intro s
        simp [sampleStep, filteredDist, topKFilter, topPFilter, drawIndex]
      unfold sample_sequence
      rw [if_neg (by norm_num), if_neg (by norm_num), if_neg (by norm_num),
        if_neg (by decide)]
      rw [show ((2 : Int)).toNat = 2 from rfl]
      rw [sampleLoop]
      rw [if_neg (by simp)]
      rw [sampleLoop]
      rw [if_neg (by simp)]
      rw [sampleLoop]
      simp [hstep])).1 rfl

/-- Helper: reading an entry of a mapped range at an in-bounds index. -/
theorem getD_range_map (n : Nat) (f : Nat → ℚ) (i : Nat) (hi : i < n) (d : ℚ) :
    ((List.range n).map f).getD i d = f i := by
  have hlen : i < ((List.range n).map f).length := by simpa using hi
  rw [List.getD_eq_getElem _ _ hlen]
  simp

/-- Helper: top-k filtering preserves the distribution's length. -/
theorem length_topKFilter (l : List ℚ) (k : Int) :
    (topKFilter l k).length = l.length := by
  unfold topKFilter
  split_ifs <;> simp

/-- Helper: nucleus filtering preserves the distribution's length. -/
theorem length_topPFilter (l : List ℚ) (p : ℚ) :
    (topPFilter l p).length = l.length := by
  unfold topPFilter
  split_ifs <;> simp

/-- Helper: the first maximum of a distribution has rank zero in the
stable descending sort. -/
theorem rankOf_first_max (l : List ℚ) (i0 : Nat)
    (hmax : ∀ j < l.length, l.getD j 0 ≤ l.getD i0 0)
    (hfirst : ∀ j < i0, l.getD j 0 < l.getD i0 0) :
    rankOf l i0 = 0 := by
  unfold rankOf
  rw [List.length_eq_zero]
  rw [List.filter_eq_nil_iff]
  intro j hj
  have hjlt : j < l.length := List.mem_range.mp hj
  simp only [decide_eq_true_eq, not_or]
  constructor
  · exact not_lt.mpr (hmax j hjlt)
  · rintro ⟨heq, hlt⟩
    exact absurd heq (ne_of_lt (hfirst j hlt))

/-- Helper: any in-bounds entry other than the first maximum has positive
rank. -/
theorem rankOf_pos_of_ne_first_max (l : List ℚ) (i0 i : Nat)
    (hi0 : i0 < l.length) (hil : i < l.length) (hne : i ≠ i0)
    (hmax : ∀ j < l.length, l.getD j 0 ≤ l.getD i0 0)
    (hfirst : ∀ j < i0, l.getD j 0 < l.getD i0 0) :
    0 < rankOf l i := by
  unfold rankOf
  have hmem : i0 ∈ (List.range l.length).filter (fun j =>
      decide (l.getD i 0 < l.getD j 0 ∨ (l.getD j 0 = l.getD i 0 ∧ j < i))) := by
    apply List.mem_filter.mpr
    refine ⟨List.mem_range.mpr hi0, ?_⟩
    simp only [decide_eq_true_eq]
    rcases lt_or_eq_of_le (hmax i hil) with hlt | heq
    · exact Or.inl hlt
    · refine Or.inr ⟨heq.symm, ?_⟩
      rcases Nat.lt_or_ge i i0 with hlt2 | hge
      · exact absurd heq (ne_of_lt (hfirst i hlt2))
      · exact lt_of_le_of_ne hge (Ne.symm hne)
  exact List.length_pos.mpr (List.ne_nil_of_mem hmem)

/-- Helper: with `top_k = 1`, filtering keeps exactly the first maximum of
the distribution and zeroes all other candidates. -/
theorem topKFilter_one_getD (l : List ℚ) (i0 : Nat) (hi0 : i0 < l.length)
    (hmax : ∀ j < l.length, l.getD j 0 ≤ l.getD i0 0)
    (hfirst : ∀ j < i0, l.getD j 0 < l.getD i0 0) :
    ∀ i < l.length,
      (topKFilter l 1).getD i 0 = if i = i0 then l.getD i0 0 else 0 := by
  intro i hi
  unfold topKFilter
  rw [if_neg (by norm_num)]
  rw [getD_range_map _ _ _ hi]
  by_cases hii : i = i0
  · subst hii
    rw [rankOf_first_max l i hmax hfirst]
    norm_num
  · have hpos := rankOf_pos_of_ne_first_max l i0 i hi0 hi hii hmax hfirst
    rw [if_neg (by exact_mod_cast not_lt.mpr hpos), if_neg hii]

/-- Helper: a list that is zero away from one position sums to that
position's entry. -/
theorem sum_of_single :
    ∀ (ws : List ℚ) (i0 : Nat) (w : ℚ), i0 < ws.length →
      (∀ i < ws.length, ws.getD i 0 = if i = i0 then w else 0) →
      ws.sum = w := by
  intro ws
  induction ws with
  | nil => intro i0 w h; exact absurd h (by simp)
  | cons a t ih =>
    intro i0 w hi0 h
    cases i0 with
    | zero =>
      have ha : a = w := by simpa using h 0 (by simp)
      have ht : t.sum = 0 := by
        apply sum_eq_zero_of_all_getD_zero
        intro i hi
        have := h (i + 1) (by simpa using Nat.succ_lt_succ hi)
        simpa using this
      simp [ha, ht]
    | succ k =>
      have ha : a = 0 := by simpa using h 0 (by simp)
      have ht : t.sum = w := by
        apply ih k w (by simpa using Nat.lt_of_succ_lt_succ hi0)
        intro i hi
        have := h (i + 1) (by simpa using Nat.succ_lt_succ hi)
        simpa using this
      simp [ha, ht]

/-- Helper: the inverse-CDF draw lands on the only positive-weight entry
whenever the random value is inside it. -/
theorem drawIndex_single :
    ∀ (ws : List ℚ) (i0 : Nat) (x w : ℚ), i0 < ws.length →
      (∀ j < i0, ws.getD j 0 = 0) → ws.getD i0 0 = w → 0 ≤ x → x < w →
      drawIndex ws x = i0 := by
  intro ws
  induction ws with
  | nil => intro i0 x w h; exact absurd h (by simp)
  | cons a t ih =>
    intro i0 x w hi0 hzero hw hx0 hxw
    cases i0 with
    | zero =>
      have ha : a = w := by simpa using hw
      unfold drawIndex
      rw [if_pos (by rw [ha]; exact hxw)]
    | succ k =>
      have ha : a = 0 := by simpa using hzero 0 (Nat.succ_pos k)
      unfold drawIndex
      rw [if_neg (by rw [ha]; exact not_lt.mpr hx0)]
      have hrec : drawIndex t (x - a) = k := by
        apply ih k (x - a) w (by simpa using Nat.lt_of_succ_lt_succ hi0)
        · intro j hj
          have := hzero (j + 1) (Nat.succ_lt_succ hj)
          simpa using this
        · simpa using hw
        · rw [ha]; simpa using hx0
        · rw [ha]; simpa using hxw
      rw [hrec]

/-- Helper: the cumulative probability before a rank-zero entry is zero. -/
theorem cumBefore_eq_zero_of_rank_zero (m : List ℚ) (i0 : Nat)
    (h : rankOf m i0 = 0) : cumBefore m i0 = 0 := by
  unfold cumBefore
  rw [h]
  have hnil : (List.range m.length).filter (fun j => decide (rankOf m j < 0)) = [] := by
    rw [List.filter_eq_nil_iff]
    intro j _
    simp
  rw [hnil]
  rfl

/-- Helper: with `top_k = 1` and `0 < top_p` the fully filtered
distribution is zero except at the first maximum. -/
theorem filteredDist_topk_one (l : List ℚ) (p T : ℚ) (i0 : Nat)
    (hi0 : i0 < l.length)
    (hmax : ∀ j < l.length, l.getD j 0 ≤ l.getD i0 0)
    (hfirst : ∀ j < i0, l.getD j 0 < l.getD i0 0)
    (hpos : 0 < l.getD i0 0) (hp : 0 < p) :
    (filteredDist l ⟨1, p, T⟩).length = l.length ∧
    ∀ i < l.length,
      (filteredDist l ⟨1, p, T⟩).getD i 0 = if i = i0 then l.getD i0 0 else 0 := by
  have hm := topKFilter_one_getD l i0 hi0 hmax hfirst
  have hml : (topKFilter l 1).length = l.length := length_topKFilter l 1
  have hfd : filteredDist l ⟨1, p, T⟩ = topPFilter (topKFilter l 1) p := rfl
  by_cases hp1 : 1 ≤ p
  · have hpp : topPFilter (topKFilter l 1) p = topKFilter l 1 := by
      unfold topPFilter
      rw [if_pos hp1]
    rw [hfd, hpp]
    exact ⟨hml, hm⟩
  · have hmax_m : ∀ j < (topKFilter l 1).length,
        (topKFilter l 1).getD j 0 ≤ (topKFilter l 1).getD i0 0 := by
      intro j hj
      rw [hml] at hj
      rw [hm j hj, hm i0 hi0, if_pos rfl]
      by_cases hji : j = i0
      · rw [if_pos hji]
      · rw [if_neg hji]; exact le_of_lt hpos
    have hfirst_m : ∀ j < i0,
        (topKFilter l 1).getD j 0 < (topKFilter l 1).getD i0 0 := by
      intro j hj
      rw [hm j (lt_trans hj hi0), hm i0 hi0, if_pos rfl,
        if_neg (Nat.ne_of_lt hj)]
      exact hpos
    have hrank0 : rankOf (topKFilter l 1) i0 = 0 :=
      rankOf_first_max _ _ hmax_m hfirst_m
    have hcum0 : cumBefore (topKFilter l 1) i0 = 0 :=
      cumBefore_eq_zero_of_rank_zero _ _ hrank0
    have hpp : topPFilter (topKFilter l 1) p =
        (List.range (topKFilter l 1).length).map
          (fun i => if cumBefore (topKFilter l 1) i < p
            then (topKFilter l 1).getD i 0 else 0) := by
      unfold topPFilter
      rw [if_neg hp1]
    rw [hfd, hpp]
    constructor
    · simp [hml]
    · intro i hi
      rw [getD_range_map _ _ _ (by rw [hml]; exact hi)]
      by_cases hii : i = i0
      · subst hii
        rw [hcum0, if_pos hp, hm i hi, if_pos rfl]
      · rw [hm i hi, if_neg hii, ite_self]

/-- C6 (top-k filtering): `top_k ≤ 0` (as in `gen_log`'s calls with
`top_k = -1`) disables top-k filtering entirely; with `top_k > 0` only the
`top_k` best-ranked candidates keep their probability and every other
candidate is zeroed; and with `top_k = 1` the sampler emits the single
highest-probability token regardless of the random draw `r ∈ [0, 1)`. -/
theorem topk_filtering (model : List Nat → List ℚ) (seq : List Nat)
    (l : List ℚ) (k : Int) (p T r : ℚ) (i0 : Nat)
    (hl : model seq = l) (hi0 : i0 < l.length)
    (hmax : ∀ j < l.length, l.getD j 0 ≤ l.getD i0 0)
    (hfirst : ∀ j < i0, l.getD j 0 < l.getD i0 0)
    (hpos : 0 < l.getD i0 0) (hp : 0 < p) (hr0 : 0 ≤ r) (hr1 : r < 1) :
    (k ≤ 0 → topKFilter l k = l) ∧
    (0 < k → ∀ i < l.length,
      (topKFilter l k).getD i 0 =
        if (rankOf l i : Int) < k then l.getD i 0 else 0) ∧
    sampleStep model ⟨1, p, T⟩ seq r = i0 := by
  refine ⟨fun hk => ?_, fun hk i hi => ?_, ?_⟩
  · unfold topKFilter
    rw [if_pos hk]
  · unfold topKFilter
    rw [if_neg (not_le.mpr hk)]
    exact getD_range_map _ _ _ hi _
  · have hfd := filteredDist_topk_one l p T i0 hi0 hmax hfirst hpos hp
    have hsum : (filteredDist l ⟨1, p, T⟩).sum = l.getD i0 0 :=
      sum_of_single _ i0 _ (by rw [hfd.1]; exact hi0)
        (fun i hi => hfd.2 i (by rwa [hfd.1] at hi))
    have hpos' : 0 < (filteredDist l ⟨1, p, T⟩).sum := by
      rw [hsum]; exact hpos
    simp only [sampleStep]
    rw [hl]
    exact drawIndex_single _ i0 _ (l.getD i0 0) (by rw [hfd.1]; exact hi0)
      (fun j hj => by rw [hfd.2 j (lt_trans hj hi0), if_neg (Nat.ne_of_lt hj)])
      ((hfd.2 i0 hi0).trans (if_pos rfl))
      (mul_nonneg hr0 (le_of_lt hpos'))
      (by rw [hsum]; exact mul_lt_of_lt_one_left hpos hr1)

/-- Witness for C6 on the distribution `[1, 0]`: `top_k = -1` disables the
filter, the retained entry is the rank-zero one, and with `top_k = 1` the
draw at `r = 1/3` emits token `0`, the unique maximum. -/
theorem topk_filtering_witness :
    topKFilter [(1 : ℚ), 0] (-1) = [(1 : ℚ), 0] ∧
    (topKFilter [(1 : ℚ), 0] 1).getD 0 0 =
      (if ((rankOf [(1 : ℚ), 0] 0 : Int) < 1)
        then [(1 : ℚ), 0].getD 0 0 else 0) ∧
    sampleStep (fun _ => [(1 : ℚ), 0]) ⟨1, 1/2, 1⟩ [] (1/3) = 0 := by
  have hmax : ∀ j < ([(1 : ℚ), 0]).length,
      ([(1 : ℚ), 0]).getD j 0 ≤ ([(1 : ℚ), 0]).getD 0 0 := by
    intro j hj
    have hj2 : j < 2 := by simpa using hj
    interval_cases j <;> norm_num [List.getD_cons_zero, List.getD_cons_succ]
  have hfirst : ∀ j < 0,
      ([(1 : ℚ), 0]).getD j 0 < ([(1 : ℚ), 0]).getD 0 0 :=
    fun j hj => absurd hj (Nat.not_lt_zero j)
  have hpos : (0 : ℚ) < ([(1 : ℚ), 0]).getD 0 0 := by
    norm_num [List.getD_cons_zero]
  have h1 := topk_filtering (fun _ => [(1 : ℚ), 0]) [] [(1 : ℚ), 0] (-1)
    (1/2) 1 (1/3) 0 rfl (by norm_num) hmax hfirst hpos (by norm_num)
    (by norm_num) (by norm_num)
  have h2 := topk_filtering (fun _ => [(1 : ℚ), 0]) [] [(1 : ℚ), 0] 1
    (1/2) 1 (1/3) 0 rfl (by norm_num) hmax hfirst hpos (by norm_num)
    (by norm_num) (by norm_num)
  exact ⟨h1.1 (by norm_num), h2.2.1 (by norm_num) 0 (by norm_num), h2.2.2⟩

/-- C7 (nucleus filtering, inclusive boundary): with `top_p < 1` a
candidate keeps its probability exactly when the cumulative probability of
the strictly better-ranked candidates is still `< top_p` (so a candidate
whose cumulative probability exactly reaches `top_p` at the boundary is
included) and is zeroed otherwise; on the distribution
`[0.5, 0.3, 0.15, 0.05]` with `top_p = 0.8` exactly the first two entries
are retained. -/
theorem nucleus_filtering (l : List ℚ) (p : ℚ) (i : Nat)
    (hi : i < l.length) (hp : p < 1) :
    ((cumBefore l i < p → (topPFilter l p).getD i 0 = l.getD i 0) ∧
      (p ≤ cumBefore l i → (topPFilter l p).getD i 0 = 0)) ∧
    topPFilter [(1 : ℚ)/2, 3/10, 3/20, 1/20] (4/5) = [1/2, 3/10, 0, 0] := by
  constructor
  · have hpp : topPFilter l p = (List.range l.length).map
        (fun j => if cumBefore l j < p then l.getD j 0 else 0) := by
      unfold topPFilter
      rw [if_neg (not_le.mpr hp)]
    constructor
    · intro hc
      rw [hpp, getD_range_map _ _ _ hi, if_pos hc]
    · intro hc
      rw [hpp, getD_range_map _ _ _ hi, if_neg (not_lt.mpr hc)]
  · norm_num [topPFilter, cumBefore, rankOf, List.range_succ,
      List.getD_cons_zero, List.getD_cons_succ, List.filter_cons,
      List.filter_append, decide_eq_true_eq]

/-- Witness for C7: on `[0.5, 0.3, 0.15, 0.05]` with `top_p = 0.8` the
second entry (cumulative probability before it `0.5 < 0.8`) keeps its
probability, and the retained set is exactly the first two entries. -/
theorem nucleus_filtering_witness :
    (topPFilter [(1 : ℚ)/2, 3/10, 3/20, 1/20] (4/5)).getD 1 0 =
      ([(1 : ℚ)/2, 3/10, 3/20, 1/20]).getD 1 0 ∧
    topPFilter [(1 : ℚ)/2, 3/10, 3/20, 1/20] (4/5) = [1/2, 3/10, 0, 0] := by
  have h := nucleus_filtering [(1 : ℚ)/2, 3/10, 3/20, 1/20] (4/5) 1
    (by norm_num) (by norm_num)
  refine ⟨h.1.1 ?_, h.2⟩
  norm_num [cumBefore, rankOf, List.range_succ, List.getD_cons_zero,
    List.getD_cons_succ, List.filter_cons, List.filter_append,
    decide_eq_true_eq, List.cons_ne_nil, List.length_nil, List.length_cons]
